import Mathlib

/-!
Shallow embedding of `relay/fakes.go` from mincau/tchannel-go: the testing
spies `MockCallStats` and `MockStats` for the relay `CallStats` / `Stats`
interfaces, together with the assertion logic `AssertEqual`,
`assertEdgeEqual`, `assertCallEqual` and the key derivation `tripleToKey`.

Modelling conventions:
* Go `int` counters that are only ever incremented from zero (`succeeded`,
  `ended`) are `Nat`; the Go comparison `succeeded <= 0` is then `= 0`.
* The `*Peer` pointer field is `Option Peer`; testify `assert.Equal` on two
  pointers deep-compares the pointed values with `nil` distinct from
  non-`nil`, which is exactly `Option` equality.
* The Go `map[string][]*MockCallStats` is an insertion-ordered association
  list; `AssertEqual` only uses the map through its size (`len`), lookups
  (missing key gives `nil`, here `[]`) and iteration over keys, so key
  order affects only the order of failure messages, not pass/fail/abort.
* testify `assert.*` failures mark the test failed and continue; `require.*`
  failures abort the whole assertion (`t.FailNow`). `TestOutcome` records
  both: `done msgs` is a completed run with the accumulated assert-failure
  messages (empty = pass), `abort msg prior` is a run stopped by a require
  failure `msg` after accumulating the assert failures `prior`.
* The `sync.WaitGroup` (`wg` field, the initial `m.wg.Wait()` of `AssertEqual`)
  is modelled separately as an event-trace semantics (`TraceEvent`,
  `traceStep`, `runTrace`): `Add` increments the counter, `End` decrements
  it, and `wg.Done` on a counter already at zero panics (result `none`).
  `wg.Wait` returns exactly in states whose counter is zero, so the
  expected-vs-actual comparison of `AssertEqual` begins only in such states.
* The final `t.Logf` diagnostic dump in `assertCallEqual` does not affect
  pass/fail and is not modelled.
-/

/-- Modelled from the spec: `Peer` (declared outside `src/`) is an opaque
immutable descriptor of a remote endpoint, compared by value. -/
structure Peer where
  hostPort : String
deriving DecidableEq

/-- Modelled from the spec: `CallFrame` (declared outside `src/`) is an
immutable descriptor exposing the caller, callee service and procedure of
one call, read by `MockStats.Begin` via `f.Caller()`, `f.Service()`,
`f.Method()`. -/
structure CallFrame where
  caller : String
  service : String
  method : String
deriving DecidableEq

/-- The `MockCallStats` spy record: success count, ordered failure reasons,
end count, optional peer, and the peer-verification flag set by `SetPeer`.
The `wg` back pointer to the owning recorder lives in the trace model. -/
structure MockCallStats where
  succeeded : Nat
  failedMsgs : List String
  ended : Nat
  peer : Option Peer
  verifyPeer : Bool
deriving DecidableEq

/-- A freshly created record, as allocated by `MockStats.Add`:
`&MockCallStats{wg: &m.wg}`, all other fields zero-valued. -/
def newMockCallStats : MockCallStats :=
  { succeeded := 0, failedMsgs := [], ended := 0, peer := none, verifyPeer := false }

/-- One mutation of a `MockCallStats` record: `Succeeded`, `Failed`,
`SetPeer`, or the record-local part of `End` (`ended++`; the `wg.Done` side
effect is in the trace model). -/
inductive CallOp where
  | succeededOp : CallOp
  | failedOp (reason : String) : CallOp
  | setPeerOp (p : Peer) : CallOp
  | endOp : CallOp
deriving DecidableEq

/-- Apply one mutation, following the method bodies in `fakes.go`:
`m.succeeded++`, `m.failedMsgs = append(m.failedMsgs, reason)`,
`m.verifyPeer = true; m.peer = &peer`, `m.ended++`. -/
def applyCallOp (m : MockCallStats) : CallOp → MockCallStats
  | .succeededOp => { m with succeeded := m.succeeded + 1 }
  | .failedOp reason => { m with failedMsgs := m.failedMsgs ++ [reason] }
  | .setPeerOp p => { m with verifyPeer := true, peer := some p }
  | .endOp => { m with ended := m.ended + 1 }

/-- A record as produced by a sequence of mutations on a fresh record. -/
def buildRecord (ops : List CallOp) : MockCallStats :=
  ops.foldl applyCallOp newMockCallStats

/-- Source `MockStats.tripleToKey`: `fmt.Sprintf("%s->%s::%s", caller, callee, procedure)`. -/
def tripleToKey (caller callee procedure : String) : String :=
  caller ++ "->" ++ callee ++ "::" ++ procedure

/-- The `MockStats` recorder: the edge-keyed map of call records (as an
insertion-ordered association list) plus the `sync.WaitGroup` counter of
calls added but not yet ended. -/
structure MockStats where
  wgCounter : Nat
  stats : List (String × List MockCallStats)
deriving DecidableEq

/-- Source `NewMockStats`: empty map, zero pending calls. -/
def NewMockStats : MockStats := { wgCounter := 0, stats := [] }

/-- Embedding of `m.stats[key] = append(m.stats[key], cs)` on the association list:
append to the (first) entry for `key`, or create the entry at the end. -/
def addToEdge : List (String × List MockCallStats) → String → MockCallStats →
    List (String × List MockCallStats)
  | [], key, cs => [(key, [cs])]
  | (k, l) :: rest, key, cs =>
      if k = key then (k, l ++ [cs]) :: rest else (k, l) :: addToEdge rest key cs

/-- Go map lookup on the association list: first entry for the key, a
missing key yields `nil` (`[]`). -/
def lookupEdge : List (String × List MockCallStats) → String → List MockCallStats
  | [], _ => []
  | (k, l) :: rest, edge => if k = edge then l else lookupEdge rest edge

/-- Go map lookup `m.stats[edge]`. -/
def edgeCalls (m : MockStats) (edge : String) : List MockCallStats :=
  lookupEdge m.stats edge

/-- Source `MockStats.Add`: `m.wg.Add(1)`, allocate a fresh record, append it under
`tripleToKey(caller, callee, procedure)`. The returned fluent handle is the
record just appended (the last element of its edge sequence). -/
def MockStats.Add (m : MockStats) (caller callee procedure : String) : MockStats :=
  { wgCounter := m.wgCounter + 1,
    stats := addToEdge m.stats (tripleToKey caller callee procedure) newMockCallStats }

/-- Source `MockStats.Begin`: `m.Add(string(f.Caller()), string(f.Service()), string(f.Method()))`,
returning the same record without the fluent wrapper. -/
def MockStats.Begin (m : MockStats) (f : CallFrame) : MockStats :=
  m.Add f.caller f.service f.method

/-- Outcome of running (part of) an assertion under a testify `testing.TB`:
`done msgs` finished with the listed assert-failure messages; `abort msg prior`
was stopped by `require` failure `msg` after the assert failures `prior`. -/
inductive TestOutcome where
  | done (failures : List String) : TestOutcome
  | abort (msg : String) (prior : List String) : TestOutcome
deriving DecidableEq

/-- Sequence two assertion fragments: a require-abort stops everything that
follows; assert failures accumulate in order. -/
def TestOutcome.seq : TestOutcome → TestOutcome → TestOutcome
  | .abort m f, _ => .abort m f
  | .done f, .abort m g => .abort m (f ++ g)
  | .done f, .done g => .done (f ++ g)

/-- All messages reported by an assertion run, in report order. -/
def TestOutcome.messages : TestOutcome → List String
  | .done f => f
  | .abort m f => f ++ [m]

/-- Whether the test fails: any assert-failure message, or a require-abort. -/
def TestOutcome.failed : TestOutcome → Bool
  | .done f => !f.isEmpty
  | .abort _ _ => true

def msgEdgeSet : String := "Found calls along unexpected edges."
def msgCallCount (edge : String) : String :=
  "Unexpected number of calls along " ++ edge ++ " edge."
def msgRequireEnded : String := "Expected call must assert exactly one call to End."
def msgRequireOutcome : String := "Expectation must indicate whether RPC should succeed or fail."
def msgSucceeded : String := "Unexpected number of successes."
def msgFailedMsgs : String := "Unexpected reasons for RPC failure."
def msgEnded : String := "Unexpected number of calls to End."
def msgPeer : String := "Unexpected peer used for the call"

/-- Source `MockStats.assertCallEqual`: two `require`s on the expected record
(`expected.ended` must be exactly 1; the expectation must declare a success
or a failure reason), then four `assert.Equal` data comparisons, the peer
one only when the expected record called `SetPeer`. -/
def assertCallEqual (expected actual : MockCallStats) : TestOutcome :=
  if expected.ended ≠ 1 then .abort msgRequireEnded []
  else if expected.succeeded = 0 ∧ expected.failedMsgs = [] then .abort msgRequireOutcome []
  else .done
    ((if expected.succeeded = actual.succeeded then [] else [msgSucceeded]) ++
     (if expected.failedMsgs = actual.failedMsgs then [] else [msgFailedMsgs]) ++
     (if expected.ended = actual.ended then [] else [msgEnded]) ++
     (if expected.verifyPeer then
        (if expected.peer = actual.peer then [] else [msgPeer]) else []))

/-- The `for i := range expectedCalls` loop of `assertEdgeEqual`, on the
positional pairs of the two equal-length sequences. -/
def compareCalls (pairs : List (MockCallStats × MockCallStats)) : TestOutcome :=
  pairs.foldl (fun acc pr => acc.seq (assertCallEqual pr.1 pr.2)) (.done [])

/-- Source `MockStats.assertEdgeEqual`: compare the number of calls along `edge`;
when equal, compare the records pairwise by position. -/
def assertEdgeEqual (m expected : MockStats) (edge : String) : TestOutcome :=
  if (edgeCalls expected edge).length = (edgeCalls m edge).length then
    compareCalls ((edgeCalls expected edge).zip (edgeCalls m edge))
  else .done [msgCallCount edge]

/-- Source `MockStats.AssertEqual` after its `m.wg.Wait()`: compare the map sizes
(edge-set check), and when they agree, compare every edge present in
`expected`. -/
def MockStats.AssertEqual (m expected : MockStats) : TestOutcome :=
  if expected.stats.length = m.stats.length then
    (expected.stats.map Prod.fst).foldl
      (fun acc edge => acc.seq (assertEdgeEqual m expected edge)) (.done [])
  else .done [msgEdgeSet]

/-! ### Trace model of the `sync.WaitGroup` pending-completion counter

Records of one recorder are numbered in `Add`/`Begin` order. An event is
one `Add`/`Begin` call or one `End()` call on record `rid`. The state keeps
per record the `ended` count and the WaitGroup counter; `wg.Done` with the
counter already at zero panics (Go: "negative WaitGroup counter"), which is
`none`, as is `End` on a record that was never created (impossible in Go:
callers hold a pointer to an existing record). -/

/-- One concurrent event on a single recorder. -/
inductive TraceEvent where
  | addEv : TraceEvent
  | endEv (rid : Nat) : TraceEvent
deriving DecidableEq

/-- Per-recorder trace state: `ends` maps each created record (by creation
index) to its number of `End()` calls; `wg` is the WaitGroup counter. -/
structure TraceState where
  ends : List Nat
  wg : Nat
deriving DecidableEq

/-- Effect of one event: `Add`/`Begin` does `wg.Add(1)` and creates a record
with `ended = 0`; `End(rid)` does `ended++` and `wg.Done()`, panicking
(`none`) when the counter is already zero. -/
def traceStep (s : TraceState) : TraceEvent → Option TraceState
  | .addEv => some { ends := s.ends ++ [0], wg := s.wg + 1 }
  | .endEv rid =>
      if rid < s.ends.length then
        match s.wg with
        | 0 => none
        | w + 1 => some { ends := s.ends.set rid (s.ends.getD rid 0 + 1), wg := w }
      else none

/-- Run a trace from a given state, stopping at the first panic. -/
def runTraceFrom (s : TraceState) : List TraceEvent → Option TraceState
  | [] => some s
  | e :: rest =>
      match traceStep s e with
      | some s2 => runTraceFrom s2 rest
      | none => none

/-- Run a trace on a fresh recorder (`NewMockStats`: no records, counter 0). -/
def runTrace (evs : List TraceEvent) : Option TraceState :=
  runTraceFrom { ends := [], wg := 0 } evs

/-- Number of `Add`/`Begin` events in a trace. -/
def countAdds (evs : List TraceEvent) : Nat :=
  evs.countP fun e => match e with | .addEv => true | .endEv _ => false

/-- Number of `End()` events in a trace. -/
def countEnds (evs : List TraceEvent) : Nat :=
  evs.countP fun e => match e with | .addEv => false | .endEv _ => true

theorem sum_set_succ (l : List Nat) (i : Nat) (h : i < l.length) :
    (l.set i (l.getD i 0 + 1)).sum = l.sum + 1 := by
  induction l generalizing i with
  | nil => simp at h
  | cons a t ih =>
      cases i with
      | zero => simp; omega
      | succ j =>
          simp only [List.set, List.getD_cons_succ, List.sum_cons]
          rw [ih j (by simpa using h)]
          omega

theorem countAdds_cons_add (evs : List TraceEvent) :
    countAdds (.addEv :: evs) = countAdds evs + 1 := by
  simp [countAdds, List.countP_cons]

theorem countAdds_cons_end (rid : Nat) (evs : List TraceEvent) :
    countAdds (.endEv rid :: evs) = countAdds evs := by
  simp [countAdds, List.countP_cons]

theorem countEnds_cons_add (evs : List TraceEvent) :
    countEnds (.addEv :: evs) = countEnds evs := by
  simp [countEnds, List.countP_cons]

theorem countEnds_cons_end (rid : Nat) (evs : List TraceEvent) :
    countEnds (.endEv rid :: evs) = countEnds evs + 1 := by
  simp [countEnds, List.countP_cons]

/-- The WaitGroup counter always equals the number of created records minus
the number of completed `End`s: `wg + Σ ends = |ends|` is preserved. -/
theorem runTraceFrom_inv (evs : List TraceEvent) (s s2 : TraceState)
    (hrun : runTraceFrom s evs = some s2)
    (hinv : s.wg + s.ends.sum = s.ends.length) :
    s2.wg + s2.ends.sum = s2.ends.length := by
  induction evs generalizing s with
  | nil =>
      simp only [runTraceFrom, Option.some.injEq] at hrun
      subst hrun
      exact hinv
  | cons e rest ih =>
      simp only [runTraceFrom] at hrun
      cases e with
      | addEv =>
          simp only [traceStep] at hrun
          exact ih _ hrun (by simp; omega)
      | endEv rid =>
          simp only [traceStep] at hrun
          by_cases h : rid < s.ends.length
          · rw [if_pos h] at hrun
            cases hw : s.wg with
            | zero => rw [hw] at hrun; simp at hrun
            | succ w =>
                rw [hw] at hrun
                simp only at hrun
                refine ih _ hrun ?_
                simp only [List.length_set, sum_set_succ s.ends rid h]
                omega
          · rw [if_neg h] at hrun; simp at hrun

/-- A completed run has performed every event: the number of created records
grows by the adds, and the total of `End` counts grows by the ends. -/
theorem runTraceFrom_counts (evs : List TraceEvent) (s s2 : TraceState)
    (hrun : runTraceFrom s evs = some s2) :
    s2.ends.length = s.ends.length + countAdds evs ∧
    s2.ends.sum = s.ends.sum + countEnds evs := by
  induction evs generalizing s with
  | nil =>
      simp only [runTraceFrom, Option.some.injEq] at hrun
      subst hrun
      simp [countAdds, countEnds]
  | cons e rest ih =>
      simp only [runTraceFrom] at hrun
      cases e with
      | addEv =>
          simp only [traceStep] at hrun
          obtain ⟨h1, h2⟩ := ih _ hrun
          simp only [List.length_append, List.sum_append, List.length_cons,
            List.sum_cons, List.length_nil, List.sum_nil] at h1 h2
          rw [countAdds_cons_add, countEnds_cons_add]
          constructor <;> omega
      | endEv rid =>
          simp only [traceStep] at hrun
          by_cases h : rid < s.ends.length
          · rw [if_pos h] at hrun
            cases hw : s.wg with
            | zero => rw [hw] at hrun; simp at hrun
            | succ w =>
                rw [hw] at hrun
                simp only at hrun
                obtain ⟨h1, h2⟩ := ih _ hrun
                simp only [List.length_set] at h1
                rw [sum_set_succ s.ends rid h] at h2
                rw [countAdds_cons_end, countEnds_cons_end]
                constructor <;> omega
          · rw [if_neg h] at hrun; simp at hrun

/-! ### Helper lemmas -/

theorem lookupEdge_addToEdge_self (l : List (String × List MockCallStats))
    (key : String) (cs : MockCallStats) :
    lookupEdge (addToEdge l key cs) key = lookupEdge l key ++ [cs] := by
  induction l with
  | nil => simp [addToEdge, lookupEdge]
  | cons pr rest ih =>
      obtain ⟨k, el⟩ := pr
      by_cases hk : k = key
      · subst hk
        simp [addToEdge, lookupEdge]
      · simp [addToEdge, lookupEdge, hk, ih]

theorem lookupEdge_addToEdge_other (l : List (String × List MockCallStats))
    (key k2 : String) (cs : MockCallStats) (h : k2 ≠ key) :
    lookupEdge (addToEdge l key cs) k2 = lookupEdge l k2 := by
  induction l with
  | nil => simp [addToEdge, lookupEdge, Ne.symm h]
  | cons pr rest ih =>
      obtain ⟨k, el⟩ := pr
      by_cases hk : k = key
      · subst hk
        simp [addToEdge, lookupEdge, Ne.symm h]
      · simp [addToEdge, lookupEdge, hk, ih]

theorem lookupEdge_eq_nil_of_not_mem (l : List (String × List MockCallStats))
    (k : String) (h : k ∉ l.map Prod.fst) : lookupEdge l k = [] := by
  induction l with
  | nil => rfl
  | cons pr rest ih =>
      obtain ⟨k1, el⟩ := pr
      simp only [List.map_cons, List.mem_cons, not_or] at h
      simp [lookupEdge, Ne.symm h.1, ih h.2]

theorem lookupEdge_ne_nil_of_mem (l : List (String × List MockCallStats))
    (k : String) (hmem : k ∈ l.map Prod.fst)
    (hne : ∀ pr ∈ l, pr.snd ≠ []) : lookupEdge l k ≠ [] := by
  induction l with
  | nil => simp at hmem
  | cons pr rest ih =>
      obtain ⟨k1, el⟩ := pr
      by_cases hk : k1 = k
      · simp only [lookupEdge, if_pos hk]
        exact hne (k1, el) (List.mem_cons_self _ _)
      · simp only [lookupEdge, if_neg hk]
        refine ih ?_ fun pr hpr => hne pr (List.mem_cons_of_mem _ hpr)
        simp only [List.map_cons, List.mem_cons] at hmem
        rcases hmem with h1 | h2
        · exact absurd h1.symm hk
        · exact h2

theorem seq_failed (a b : TestOutcome) :
    (a.seq b).failed = (a.failed || b.failed) := by
  cases a with
  | abort m f => simp [TestOutcome.seq, TestOutcome.failed]
  | done f =>
      cases b with
      | abort m g => simp [TestOutcome.seq, TestOutcome.failed]
      | done g =>
          cases f with
          | nil => simp [TestOutcome.seq, TestOutcome.failed]
          | cons x xs => simp [TestOutcome.seq, TestOutcome.failed]

theorem foldl_seq_failed {α : Type} (f : α → TestOutcome) (l : List α)
    (init : TestOutcome) :
    (l.foldl (fun acc x => acc.seq (f x)) init).failed
      = (init.failed || l.any fun x => (f x).failed) := by
  induction l generalizing init with
  | nil => simp
  | cons a rest ih =>
      simp only [List.foldl_cons, List.any_cons]
      rw [ih, seq_failed]
      simp [Bool.or_assoc]

/-- The peer-mismatch message is reported exactly when both `require`s pass,
the expected record has `verifyPeer` set, and the peers differ. -/
theorem msgPeer_mem_assertCallEqual (e a : MockCallStats) :
    msgPeer ∈ (assertCallEqual e a).messages ↔
      (e.ended = 1 ∧ ¬(e.succeeded = 0 ∧ e.failedMsgs = []) ∧
       e.verifyPeer = true ∧ e.peer ≠ a.peer) := by
  unfold assertCallEqual
  by_cases h1 : e.ended = 1
  · by_cases h2 : e.succeeded = 0 ∧ e.failedMsgs = []
    · rw [if_neg (by simp [h1]), if_pos h2]
      simp [TestOutcome.messages, msgPeer, msgRequireOutcome, h2]
    · rw [if_neg (by simp [h1]), if_neg h2]
      have hA : msgPeer ∉
          (if e.succeeded = a.succeeded then ([] : List String) else [msgSucceeded]) := by
        split
        · simp
        · simp [msgPeer, msgSucceeded]
      have hB : msgPeer ∉
          (if e.failedMsgs = a.failedMsgs then ([] : List String) else [msgFailedMsgs]) := by
        split
        · simp
        · simp [msgPeer, msgFailedMsgs]
      have hC : msgPeer ∉
          (if e.ended = a.ended then ([] : List String) else [msgEnded]) := by
        split
        · simp
        · simp [msgPeer, msgEnded]
      have hD : (msgPeer ∈
          (if e.verifyPeer then
            (if e.peer = a.peer then ([] : List String) else [msgPeer]) else [])) ↔
          (e.verifyPeer = true ∧ e.peer ≠ a.peer) := by
        by_cases hv : e.verifyPeer = true
        · by_cases hp : e.peer = a.peer
          · simp [hv, hp]
          · simp [hv, hp]
        · simp [hv]
      rw [h1] at hC
      simp only [TestOutcome.messages, List.mem_append, hD]
      simp [hA, hB, hC, h1, h2, msgPeer, msgSucceeded, msgFailedMsgs, msgEnded]
  · rw [if_pos (by simp [h1])]
    simp [h1, TestOutcome.messages, msgPeer, msgRequireEnded]

/-- Flag `verifyPeer` on a record built by a sequence of mutations is set exactly
when some mutation was a `SetPeer`. -/
theorem foldl_verifyPeer (ops : List CallOp) (m : MockCallStats) :
    (ops.foldl applyCallOp m).verifyPeer = true ↔
      m.verifyPeer = true ∨ ∃ p, CallOp.setPeerOp p ∈ ops := by
  induction ops generalizing m with
  | nil => simp
  | cons op rest ih =>
      simp only [List.foldl_cons]
      rw [ih]
      cases op with
      | succeededOp => simp [applyCallOp]
      | failedOp r => simp [applyCallOp]
      | setPeerOp p => simp [applyCallOp]
      | endOp => simp [applyCallOp]

theorem sum_le_length (l : List Nat) (h : ∀ x ∈ l, x ≤ 1) : l.sum ≤ l.length := by
  induction l with
  | nil => simp
  | cons a t ih =>
      simp only [List.sum_cons, List.length_cons]
      have ha := h a (List.mem_cons_self _ _)
      have := ih fun x hx => h x (List.mem_cons_of_mem _ hx)
      omega

theorem all_one_of_sum_eq_length (l : List Nat) (h : ∀ x ∈ l, x ≤ 1)
    (hs : l.sum = l.length) : ∀ x ∈ l, x = 1 := by
  induction l with
  | nil => simp
  | cons a t ih =>
      have ha := h a (List.mem_cons_self _ _)
      have ht : ∀ x ∈ t, x ≤ 1 := fun x hx => h x (List.mem_cons_of_mem _ hx)
      have hle := sum_le_length t ht
      simp only [List.sum_cons, List.length_cons] at hs
      have ha1 : a = 1 := by omega
      have hts : t.sum = t.length := by omega
      intro x hx
      rcases List.mem_cons.mp hx with rfl | hx2
      · exact ha1
      · exact ih ht hts x hx2

theorem sum_eq_length_of_all_one (l : List Nat) (h : ∀ x ∈ l, x = 1) :
    l.sum = l.length := by
  induction l with
  | nil => rfl
  | cons a t ih =>
      simp only [List.sum_cons, List.length_cons]
      rw [h a (List.mem_cons_self _ _),
        ih fun x hx => h x (List.mem_cons_of_mem _ hx)]
      omega

theorem msgCallCount_ne_msgEdgeSet (edge : String) :
    msgCallCount edge ≠ msgEdgeSet := by
  intro h
  have hd := congrArg (fun s => s.data.head?) h
  simp only [msgCallCount, msgEdgeSet, String.data_append] at hd
  rw [List.head?_append_of_ne_nil] at hd
  · rw [List.head?_append_of_ne_nil] at hd
    · simp at hd
    · simp
  · simp

theorem mem_messages_seq (x : String) (a b : TestOutcome)
    (h : x ∈ (a.seq b).messages) : x ∈ a.messages ∨ x ∈ b.messages := by
  cases a with
  | abort m f => exact Or.inl h
  | done f =>
      cases b with
      | abort m g =>
          simp only [TestOutcome.seq, TestOutcome.messages] at h ⊢
          simp only [List.mem_append, List.mem_singleton] at h ⊢
          tauto
      | done g =>
          simp only [TestOutcome.seq, TestOutcome.messages] at h ⊢
          exact List.mem_append.mp h

theorem mem_messages_foldl_seq {α : Type} (f : α → TestOutcome) (l : List α)
    (init : TestOutcome) (x : String)
    (h : x ∈ (l.foldl (fun acc e => acc.seq (f e)) init).messages) :
    x ∈ init.messages ∨ ∃ e ∈ l, x ∈ (f e).messages := by
  induction l generalizing init with
  | nil => exact Or.inl h
  | cons a rest ih =>
      simp only [List.foldl_cons] at h
      rcases ih _ h with h1 | h2
      · rcases mem_messages_seq x init (f a) h1 with h3 | h3
        · exact Or.inl h3
        · exact Or.inr ⟨a, List.mem_cons_self _ _, h3⟩
      · obtain ⟨e, he, hx⟩ := h2
        exact Or.inr ⟨e, List.mem_cons_of_mem _ he, hx⟩

theorem msgEdgeSet_not_mem_assertCallEqual (e a : MockCallStats) :
    msgEdgeSet ∉ (assertCallEqual e a).messages := by
  unfold assertCallEqual
  by_cases h1 : e.ended ≠ 1
  · rw [if_pos h1]
    simp [TestOutcome.messages, msgEdgeSet, msgRequireEnded]
  · rw [if_neg h1]
    by_cases h2 : e.succeeded = 0 ∧ e.failedMsgs = []
    · rw [if_pos h2]
      simp [TestOutcome.messages, msgEdgeSet, msgRequireOutcome]
    · rw [if_neg h2]
      simp only [TestOutcome.messages]
      have hA : msgEdgeSet ∉
          (if e.succeeded = a.succeeded then ([] : List String) else [msgSucceeded]) := by
        split <;> simp [msgEdgeSet, msgSucceeded]
      have hB : msgEdgeSet ∉
          (if e.failedMsgs = a.failedMsgs then ([] : List String) else [msgFailedMsgs]) := by
        split <;> simp [msgEdgeSet, msgFailedMsgs]
      have hC : msgEdgeSet ∉
          (if e.ended = a.ended then ([] : List String) else [msgEnded]) := by
        split <;> simp [msgEdgeSet, msgEnded]
      have hD : msgEdgeSet ∉
          (if e.verifyPeer then
            (if e.peer = a.peer then ([] : List String) else [msgPeer]) else []) := by
        split
        · split <;> simp [msgEdgeSet, msgPeer]
        · simp
      intro hc
      rcases List.mem_append.mp hc with hc2 | h
      · rcases List.mem_append.mp hc2 with hc3 | h
        · rcases List.mem_append.mp hc3 with h | h
          · exact hA h
          · exact hB h
        · exact hC h
      · exact hD h

theorem msgEdgeSet_not_mem_assertEdgeEqual (m expected : MockStats) (edge : String) :
    msgEdgeSet ∉ (assertEdgeEqual m expected edge).messages := by
  unfold assertEdgeEqual
  split
  · unfold compareCalls
    intro hc
    rcases mem_messages_foldl_seq _ _ _ _ hc with h | hpr
    · simp [TestOutcome.messages] at h
    · obtain ⟨pr, _, hx⟩ := hpr
      exact msgEdgeSet_not_mem_assertCallEqual pr.1 pr.2 hx
  · simp only [TestOutcome.messages, List.mem_singleton]
    exact fun h => msgCallCount_ne_msgEdgeSet edge h.symm

/-! ### Claim theorems -/

/-- C3: when the expected record of a compared pair has an `End()` count
other than exactly 1, or declares neither a success nor any failure reason,
`assertCallEqual` aborts (testify `require`) with the corresponding
harness-misconfiguration message, before and distinct from any
expected-vs-actual data-mismatch message. -/
theorem C3_harness_misconfiguration_aborts (e a : MockCallStats) :
    (e.ended ≠ 1 → assertCallEqual e a = .abort msgRequireEnded []) ∧
    (e.ended = 1 → e.succeeded = 0 → e.failedMsgs = [] →
      assertCallEqual e a = .abort msgRequireOutcome []) ∧
    msgRequireEnded ∉ [msgSucceeded, msgFailedMsgs, msgEnded, msgPeer] ∧
    msgRequireOutcome ∉ [msgSucceeded, msgFailedMsgs, msgEnded, msgPeer] := by
  refine ⟨?_, ?_, by decide, by decide⟩
  · intro h
    unfold assertCallEqual
    rw [if_pos h]
  · intro h1 h2 h3
    unfold assertCallEqual
    rw [if_neg (by simp [h1]), if_pos ⟨h2, h3⟩]

/-- Witness for C3 at a record with zero `End()` calls. -/
theorem C3_witness :
    (buildRecord []).ended ≠ 1 ∧
      assertCallEqual (buildRecord []) (buildRecord []) = .abort msgRequireEnded [] :=
  ⟨by decide,
    (C3_harness_misconfiguration_aborts (buildRecord []) (buildRecord [])).1 (by decide)⟩

/-- C4: the peer fields are compared exactly when `SetPeer` was invoked at
least once on the expected record (`verifyPeer`); with `verifyPeer` unset no
peer-mismatch message is ever reported, whatever the actual record did. -/
theorem C4_peer_compared_iff_setPeer (eops : List CallOp) (e a : MockCallStats) :
    ((buildRecord eops).verifyPeer = true ↔ ∃ p, CallOp.setPeerOp p ∈ eops) ∧
    (e.verifyPeer = false → msgPeer ∉ (assertCallEqual e a).messages) ∧
    (e.verifyPeer = true →
      (msgPeer ∈ (assertCallEqual e a).messages ↔
        e.ended = 1 ∧ ¬(e.succeeded = 0 ∧ e.failedMsgs = []) ∧ e.peer ≠ a.peer)) := by
  refine ⟨?_, ?_, ?_⟩
  · rw [buildRecord, foldl_verifyPeer]
    simp [newMockCallStats]
  · intro h
    rw [msgPeer_mem_assertCallEqual]
    simp [h]
  · intro h
    rw [msgPeer_mem_assertCallEqual]
    simp [h]

/-- Witness for C4: an actual record that called `SetPeer` matched against
an expected record that never did reports no peer mismatch. -/
theorem C4_witness :
    (buildRecord [CallOp.succeededOp, CallOp.endOp]).verifyPeer = false ∧
    msgPeer ∉ (assertCallEqual (buildRecord [CallOp.succeededOp, CallOp.endOp])
      (buildRecord [CallOp.setPeerOp ⟨"10.0.0.1"⟩, CallOp.succeededOp,
        CallOp.endOp])).messages :=
  ⟨by decide, (C4_peer_compared_iff_setPeer [] _ _).2.1 (by decide)⟩

/-- C5: `Succeeded()` increments the success count and `Failed(reason)`
appends the reason (full history, no first-writer-wins); an actual record
with `Succeeded()` then `Failed("x")` against an expectation of only
`Succeeded()` fails `AssertEqual` on the failure-reason-sequence check. -/
theorem C5_full_history_recorded (m : MockCallStats) (reason : String) :
    applyCallOp m .succeededOp = { m with succeeded := m.succeeded + 1 } ∧
    applyCallOp m (.failedOp reason) = { m with failedMsgs := m.failedMsgs ++ [reason] } ∧
    MockStats.AssertEqual
      { wgCounter := 0,
        stats := [("a->b::p", [buildRecord [.succeededOp, .failedOp "x", .endOp]])] }
      { wgCounter := 0, stats := [("a->b::p", [buildRecord [.succeededOp, .endOp]])] }
      = .done [msgFailedMsgs] :=
  ⟨rfl, rfl, by decide⟩

/-- C6: `Add` stores records under the composite key
`caller ++ "->" ++ callee ++ "::" ++ procedure`; a call with the same triple
appends to the same edge sequence and leaves every other edge unchanged. -/
theorem C6_composite_key_same_edge (m : MockStats) (caller callee procedure k : String) :
    tripleToKey caller callee procedure = caller ++ "->" ++ callee ++ "::" ++ procedure ∧
    edgeCalls (m.Add caller callee procedure) (tripleToKey caller callee procedure)
      = edgeCalls m (tripleToKey caller callee procedure) ++ [newMockCallStats] ∧
    (k ≠ tripleToKey caller callee procedure →
      edgeCalls (m.Add caller callee procedure) k = edgeCalls m k) := by
  refine ⟨rfl, ?_, ?_⟩
  · exact lookupEdge_addToEdge_self _ _ _
  · intro h
    exact lookupEdge_addToEdge_other _ _ _ _ h

/-- Witness for C6 at a key other than the added edge. -/
theorem C6_witness :
    "zzz" ≠ tripleToKey "a" "b" "p" ∧
    edgeCalls (NewMockStats.Add "a" "b" "p") "zzz" = edgeCalls NewMockStats "zzz" :=
  ⟨by decide, (C6_composite_key_same_edge NewMockStats "a" "b" "p" "zzz").2.2 (by decide)⟩

/-- C7: `Begin(frame)` is exactly `Add` on the triple of the frame: same state
change, the pending-completion counter goes up by one and a fresh in-flight
record is appended to the edge of the frame; `Begin` is total (never fails). -/
theorem C7_begin_delegates_to_add (m : MockStats) (f : CallFrame) :
    m.Begin f = m.Add f.caller f.service f.method ∧
    (m.Begin f).wgCounter = m.wgCounter + 1 ∧
    edgeCalls (m.Begin f) (tripleToKey f.caller f.service f.method)
      = edgeCalls m (tripleToKey f.caller f.service f.method) ++ [newMockCallStats] :=
  ⟨rfl, rfl, lookupEdge_addToEdge_self _ _ _⟩

/-- C8: along one edge, `assertEdgeEqual` fails with the count-mismatch
message when the numbers of recorded calls differ; with equal counts it
passes exactly when every positional pair passes `assertCallEqual`, the
sequences being in `Add`/`Begin` insertion order (each `Add` appends). -/
theorem C8_edge_count_then_positional (m expected : MockStats) (edge : String)
    (caller callee procedure : String) :
    ((edgeCalls expected edge).length ≠ (edgeCalls m edge).length →
      assertEdgeEqual m expected edge = .done [msgCallCount edge]) ∧
    ((edgeCalls expected edge).length = (edgeCalls m edge).length →
      ((assertEdgeEqual m expected edge).failed = false ↔
        ∀ pr ∈ (edgeCalls expected edge).zip (edgeCalls m edge),
          (assertCallEqual pr.1 pr.2).failed = false)) ∧
    edgeCalls (m.Add caller callee procedure) (tripleToKey caller callee procedure)
      = edgeCalls m (tripleToKey caller callee procedure) ++ [newMockCallStats] := by
  refine ⟨?_, ?_, lookupEdge_addToEdge_self _ _ _⟩
  · intro h
    unfold assertEdgeEqual
    rw [if_neg h]
  · intro h
    unfold assertEdgeEqual compareCalls
    rw [if_pos h, foldl_seq_failed]
    simp [TestOutcome.failed, List.any_eq_false]

/-- A one-edge recorder used to witness C8. -/
def c8Expected : MockStats :=
  { wgCounter := 0, stats := [("e1", [buildRecord [.succeededOp, .endOp]])] }

/-- Witness for C8: one expected call along an edge the actual recorder
never saw is a count mismatch. -/
theorem C8_witness :
    (edgeCalls c8Expected "e1").length ≠ (edgeCalls NewMockStats "e1").length ∧
    assertEdgeEqual NewMockStats c8Expected "e1" = .done [msgCallCount "e1"] :=
  ⟨by decide,
    (C8_edge_count_then_positional NewMockStats c8Expected "e1" "a" "b" "p").1 (by decide)⟩

/-- One-edge expected recorder used for C1: its only key is `"a->b::p"`. -/
def c1Expected : MockStats :=
  { wgCounter := 0, stats := [("a->b::p", [buildRecord [.succeededOp, .endOp]])] }

/-- One-edge actual recorder used for C1: its only key is `"x->y::q"`. -/
def c1Actual : MockStats :=
  { wgCounter := 0, stats := [("x->y::q", [buildRecord [.succeededOp, .endOp]])] }

/-- C1 counterexample: the key `"a->b::p"` is present only in the expected
recorder, yet `AssertEqual` (map sizes both 1) does not report the edge-set
mismatch message; it fails with the per-edge count-mismatch message instead. -/
theorem C1_counterexample :
    ("a->b::p" ∈ c1Expected.stats.map Prod.fst ∧
      "a->b::p" ∉ c1Actual.stats.map Prod.fst) ∧
    msgEdgeSet ∉ (MockStats.AssertEqual c1Actual c1Expected).messages ∧
    MockStats.AssertEqual c1Actual c1Expected = .done [msgCallCount "a->b::p"] :=
  ⟨by decide, by decide, by decide⟩

/-- C1 (amended): if some edge key is present in only one of the two
recorders (well-formed maps: unique keys, no empty record list), then
`AssertEqual` fails; the difference is reported as the edge-set mismatch
(`"Found calls along unexpected edges."`) exactly when the numbers of
distinct keys differ — with equal key counts the assertion still fails, but
the edge-set-mismatch message is never among the reported messages. -/
theorem C1_edge_set_difference_fails (A E : MockStats)
    (hE : (E.stats.map Prod.fst).Nodup)
    (hne : ∀ pr ∈ E.stats, pr.snd ≠ [])
    (k : String)
    (hk : (k ∈ E.stats.map Prod.fst ∧ k ∉ A.stats.map Prod.fst) ∨
          (k ∈ A.stats.map Prod.fst ∧ k ∉ E.stats.map Prod.fst)) :
    (MockStats.AssertEqual A E).failed = true ∧
    (E.stats.length ≠ A.stats.length →
      MockStats.AssertEqual A E = .done [msgEdgeSet]) ∧
    (E.stats.length = A.stats.length →
      msgEdgeSet ∉ (MockStats.AssertEqual A E).messages) := by
  have hsize : E.stats.length ≠ A.stats.length →
      MockStats.AssertEqual A E = .done [msgEdgeSet] := by
    intro h
    unfold MockStats.AssertEqual
    rw [if_neg h]
  have hnorep : E.stats.length = A.stats.length →
      msgEdgeSet ∉ (MockStats.AssertEqual A E).messages := by
    intro hlen2
    unfold MockStats.AssertEqual
    rw [if_pos hlen2]
    intro hc
    rcases mem_messages_foldl_seq _ _ _ _ hc with h | hedge
    · simp [TestOutcome.messages] at h
    · obtain ⟨e, _, hx⟩ := hedge
      exact msgEdgeSet_not_mem_assertEdgeEqual A E e hx
  refine ⟨?_, hsize, hnorep⟩
  by_cases hlen : E.stats.length = A.stats.length
  · have hk0 : ∃ k0, k0 ∈ E.stats.map Prod.fst ∧ k0 ∉ A.stats.map Prod.fst := by
      rcases hk with ⟨h1, h2⟩ | ⟨h1, h2⟩
      · exact ⟨k, h1, h2⟩
      · by_contra hc
        push_neg at hc
        have hsub : E.stats.map Prod.fst ⊆ A.stats.map Prod.fst :=
          fun x hx => hc x hx
        have hsp := List.subperm_of_subset hE hsub
        have hperm := hsp.perm_of_length_le (by simp [hlen])
        exact h2 (hperm.mem_iff.mpr h1)
    obtain ⟨k0, hmemE, hmemA⟩ := hk0
    have hfail : (assertEdgeEqual A E k0).failed = true := by
      have he : edgeCalls E k0 ≠ [] := lookupEdge_ne_nil_of_mem _ _ hmemE hne
      have ha : edgeCalls A k0 = [] := lookupEdge_eq_nil_of_not_mem _ _ hmemA
      unfold assertEdgeEqual
      rw [if_neg (by
        rw [ha]
        simpa using he)]
      simp [TestOutcome.failed]
    unfold MockStats.AssertEqual
    rw [if_pos hlen, foldl_seq_failed]
    simp only [Bool.or_eq_true, List.any_eq_true]
    exact Or.inr ⟨k0, hmemE, hfail⟩
  · rw [hsize hlen]
    rfl

/-- Witness for C1 (amended) at a key present only in the expected side. -/
theorem C1_witness :
    ((c1Expected.stats.map Prod.fst).Nodup ∧
      (∀ pr ∈ c1Expected.stats, pr.snd ≠ []) ∧
      "a->b::p" ∈ c1Expected.stats.map Prod.fst ∧
      "a->b::p" ∉ NewMockStats.stats.map Prod.fst) ∧
    (MockStats.AssertEqual NewMockStats c1Expected).failed = true :=
  ⟨⟨by decide, by decide, by decide, by decide⟩,
    (C1_edge_set_difference_fails NewMockStats c1Expected (by decide) (by decide)
      "a->b::p" (Or.inl ⟨by decide, by decide⟩)).1⟩

/-- C2 counterexample: in the interleaving `Add, Add, End(record 0),
End(record 0)` the pending-completion counter is back at zero — so
the wait of `AssertEqual` is already satisfied and the comparison begins — while
record 1 has never had `End()` invoked. -/
theorem C2_counterexample :
    runTrace [.addEv, .addEv, .endEv 0, .endEv 0]
      = some { ends := [2, 0], wg := 0 } ∧
    ({ ends := [2, 0], wg := 0 } : TraceState).wg = 0 ∧
    ¬ (∀ x ∈ ({ ends := [2, 0], wg := 0 } : TraceState).ends, 1 ≤ x) :=
  ⟨by decide, rfl, by decide⟩

/-- C2 (amended): each `Add`/`Begin` increments the pending-completion
counter by one and each `End()` decrements it by one; `AssertEqual` begins
the comparison only once the counter is zero, which — provided every record
had `End()` invoked at most once — happens exactly when every record
created on the recorder has had `End()` invoked (exactly once). -/
theorem C2_wait_until_counter_zero (evs : List TraceEvent) (s : TraceState)
    (hrun : runTrace evs = some s)
    (honce : ∀ x ∈ s.ends, x ≤ 1) :
    traceStep s .addEv = some { ends := s.ends ++ [0], wg := s.wg + 1 } ∧
    (∀ rid, rid < s.ends.length → 0 < s.wg →
      traceStep s (.endEv rid)
        = some { ends := s.ends.set rid (s.ends.getD rid 0 + 1), wg := s.wg - 1 }) ∧
    (s.wg = 0 ↔ ∀ x ∈ s.ends, x = 1) := by
  have hinv : s.wg + s.ends.sum = s.ends.length :=
    runTraceFrom_inv evs _ s hrun (by simp)
  refine ⟨rfl, ?_, ?_, ?_⟩
  · intro rid hrid hwg
    simp only [traceStep]
    rw [if_pos hrid]
    cases hw : s.wg with
    | zero => omega
    | succ w => simp
  · intro h0
    exact all_one_of_sum_eq_length _ honce (by omega)
  · intro hall
    have := sum_eq_length_of_all_one _ hall
    omega

/-- Witness for C2 (amended): one call added and ended once; the counter is
zero and the record is ended exactly once. -/
theorem C2_witness :
    (runTrace [TraceEvent.addEv, TraceEvent.endEv 0]
        = some { ends := [1], wg := 0 } ∧
      ∀ x ∈ ({ ends := [1], wg := 0 } : TraceState).ends, x ≤ 1) ∧
    (∀ x ∈ ({ ends := [1], wg := 0 } : TraceState).ends, x = 1) :=
  ⟨⟨by decide, by decide⟩,
    (C2_wait_until_counter_zero [TraceEvent.addEv, TraceEvent.endEv 0]
      { ends := [1], wg := 0 } (by decide) (by decide)).2.2.mp rfl⟩

/-- C10: when the `End()` events of a trace outnumber its `Add`/`Begin`
events, the run panics (an `End` finds the WaitGroup counter at zero and
`wg.Done` would drive it negative), so the excess never reaches
`AssertEqual` as an end-count mismatch. -/
theorem C10_excess_end_panics (evs : List TraceEvent)
    (h : countAdds evs < countEnds evs) :
    (∀ (s : TraceState) (rid : Nat), s.wg = 0 → rid < s.ends.length →
      traceStep s (.endEv rid) = none) ∧
    runTrace evs = none := by
  constructor
  · intro s rid hw hr
    simp only [traceStep]
    rw [if_pos hr, hw]
  · cases hres : runTrace evs with
    | none => rfl
    | some s =>
        exfalso
        have hres2 : runTraceFrom { ends := [], wg := 0 } evs = some s := hres
        have hinv := runTraceFrom_inv evs _ s hres2 (by simp)
        obtain ⟨h1, h2⟩ := runTraceFrom_counts evs _ s hres2
        simp only [List.length_nil, List.sum_nil, Nat.zero_add] at h1 h2
        omega

/-- Witness for C10: a second `End()` on the only record panics. -/
theorem C10_witness :
    countAdds [TraceEvent.addEv, TraceEvent.endEv 0, TraceEvent.endEv 0]
      < countEnds [TraceEvent.addEv, TraceEvent.endEv 0, TraceEvent.endEv 0] ∧
    runTrace [TraceEvent.addEv, TraceEvent.endEv 0, TraceEvent.endEv 0] = none :=
  ⟨by decide, (C10_excess_end_panics _ (by decide)).2⟩

/-- C9: the composite edge key is not injective: the distinct triples
`("a->b", "c", "p")` and `("a", "b->c", "p")` share the key
`"a->b->c::p"`, so their calls aggregate on a single edge. -/
theorem C9_tripleToKey_not_injective :
    tripleToKey "a->b" "c" "p" = tripleToKey "a" "b->c" "p" ∧
    (("a->b", "c", "p") : String × String × String) ≠ ("a", "b->c", "p") ∧
    edgeCalls ((NewMockStats.Add "a->b" "c" "p").Add "a" "b->c" "p")
      (tripleToKey "a->b" "c" "p") = [newMockCallStats, newMockCallStats] :=
  ⟨by decide, by decide, by decide⟩
